import Mathlib

/-!
Verification development for the dependency-graph resolver of an
audit-metrics tool (`file_analyzer.py`).

The Python source is shallowly embedded: strings stand for `str`/`Path`
values (paths are kept in normalized, forward-slash, absolute form by the
model's filesystem), the filesystem is an explicit record of pure
functions, Python `set`s become `Finset String`, and the mutating
`visited` set is threaded as explicit state.  Regular-expression matching
is embedded by a Brzozowski-derivative matcher over an AST that a parser
builds from the very regex *strings* the Python code constructs, so the
string-level glob-to-regex translation (including the interaction of its
sequential `str.replace` passes) is modelled exactly.
-/

namespace AuditMetrics

/-! ## Basic character classes (ASCII fragments of Python's `\s`, `\w`) -/

/-- Python `\s` restricted to ASCII (the source only meets ASCII input). -/
def isPyWs (c : Char) : Bool :=
  c == ' ' || c == '\t' || c == '\n' || c == '\r' || c == '\x0b' || c == '\x0c'

/-- Python `\w` restricted to ASCII: `[A-Za-z0-9_]`. -/
def isPyWord (c : Char) : Bool :=
  c.isAlphanum || c == '_'

/-- ASCII letter or underscore, the class `[a-zA-Z_]` of the Rust patterns. -/
def isIdentStart (c : Char) : Bool :=
  c.isAlpha || c == '_'

/-! ## List-of-char scanning helpers -/

/-- Maximal prefix run of characters satisfying `p`, with the rest. -/
def take_run (p : Char → Bool) : List Char → List Char × List Char
  | [] => ([], [])
  | c :: cs =>
    if p c then
      let r := take_run p cs
      (c :: r.1, r.2)
    else ([], c :: cs)

/-- Like `take_run` but the run must be non-empty (regex `+` on a class). -/
def run1 (p : Char → Bool) (s : List Char) : Option (List Char × List Char) :=
  match take_run p s with
  | ([], _) => none
  | (a, b) => some (a, b)

/-- Strip a literal prefix, returning the rest on success. -/
def strip_pre : List Char → List Char → Option (List Char)
  | [], s => some s
  | _ :: _, [] => none
  | p :: ps, c :: cs => if p = c then strip_pre ps cs else none

/-! ## Python string operations

Structural embeddings of the `str` methods the source uses (kept
kernel-reducible so concrete theorems evaluate by `decide`). -/

/-- Worker for `str.replace`: non-overlapping, left to right, inserted
text is not rescanned.  Each step consumes at least one input character,
so fuel equal to the input length suffices. -/
def replace_chs (old new : List Char) : Nat → List Char → List Char
  | _, [] => []
  | 0, s => s
  | fuel + 1, c :: cs =>
    match strip_pre old (c :: cs) with
    | some rest => new ++ replace_chs old new fuel rest
    | none => c :: replace_chs old new fuel cs

/-- Embedding of Python `s.replace(old, new)` (callers never pass an
empty `old`). -/
def py_replace (s old new : String) : String :=
  if old.toList.isEmpty then s
  else String.mk (replace_chs old.toList new.toList s.toList.length s.toList)

/-- Worker for `str.split(sep)` with non-empty separator. -/
def split_chs (sep : List Char) : Nat → List Char → List Char → List (List Char)
  | _, acc, [] => [acc.reverse]
  | 0, acc, s => [acc.reverse ++ s]
  | fuel + 1, acc, c :: cs =>
    match strip_pre sep (c :: cs) with
    | some rest => acc.reverse :: split_chs sep fuel [] rest
    | none => split_chs sep fuel (c :: acc) cs

/-- Embedding of Python `s.split(sep)` for a non-empty separator. -/
def py_split (s sep : String) : List String :=
  (split_chs sep.toList s.toList.length [] s.toList).map String.mk

/-- Embedding of Python `s.lower()` (ASCII case folding suffices here). -/
def py_lower (s : String) : String := String.mk (s.toList.map Char.toLower)

/-- Embedding of Python `s.startswith(p)`. -/
def starts_with (s p : String) : Bool := (strip_pre p.toList s.toList).isSome

/-- Embedding of Python `s.endswith(p)`. -/
def ends_with (s p : String) : Bool :=
  (strip_pre p.toList.reverse s.toList.reverse).isSome

/-- Embedding of Python `s.strip()`. -/
def py_strip (s : String) : String :=
  String.mk (((s.toList.dropWhile isPyWs).reverse.dropWhile isPyWs).reverse)

/-- Code-point lexicographic order on character lists: how Python
compares the path strings handed to `sorted`. -/
def chars_le : List Char → List Char → Bool
  | [], _ => true
  | _ :: _, [] => false
  | a :: as, b :: bs =>
    if a.toNat < b.toNat then true
    else if b.toNat < a.toNat then false
    else chars_le as bs

def str_le (a b : String) : Bool := chars_le a.toList b.toList

/-- Embedding of Python `sorted` on path strings (the algorithm is the
model's choice; the result is determined by the order). -/
def sort_strings (l : List String) : List String :=
  List.insertionSort (fun a b => str_le a b = true) l

/-! ## Path helpers (embedding of the `pathlib` operations the source uses;
paths handled by the model are absolute and use forward slashes) -/

/-- Last `/`-separated segment (`Path.name`). -/
def path_name (p : String) : String :=
  ((py_split p "/").getLast?).getD ""

/-- Embedding of `Path.suffix`: the extension of the last segment, empty
when the last dot is leading or trailing (CPython's `0 < i < len - 1`). -/
def path_suffix (p : String) : String :=
  let cs := (path_name p).toList
  match (cs.reverse.findIdx? (· == '.')) with
  | none => ""
  | some rid =>
    let i := cs.length - 1 - rid
    if 0 < i ∧ i < cs.length - 1 then String.mk (cs.drop i) else ""

/-- Embedding of `Path.parent` on forward-slash strings. -/
def parent_path (p : String) : String :=
  let cs := p.toList
  match (cs.reverse.findIdx? (· == '/')) with
  | none => "."
  | some rid =>
    let i := cs.length - 1 - rid
    if i = 0 then "/" else String.mk (cs.take i)

/-- Embedding of `pathlib` `/`-joining (an absolute right operand wins). -/
def path_join (a b : String) : String :=
  if starts_with b "/" then b
  else if a = "" then b
  else a ++ "/" ++ b

/-- Collapse `.`/`..`/empty components, accumulator reversed. -/
def norm_comps : List String → List String → List String
  | acc, [] => acc.reverse
  | acc, c :: cs =>
    if c = "" ∨ c = "." then norm_comps acc cs
    else if c = ".." then norm_comps (acc.drop 1) cs
    else norm_comps (c :: acc) cs

/-- Textual embedding of `Path.resolve()` for absolute paths: the model's
filesystem has no symlinks, so resolution is `.`/`..`/`//` elimination. -/
def norm_path (p : String) : String :=
  "/" ++ String.intercalate "/" (norm_comps [] (py_split p "/"))

/-- Embedding of `FileAnalyzer._normalize_path`: resolve, force forward
slashes, and strip a macOS `/private` prefix. -/
def normalize_path (p : String) : String :=
  let normalized := norm_path (py_replace p "\\" "/")
  if starts_with normalized "/private/" then String.mk (normalized.toList.drop 8)
  else normalized

/-! ## Regular expressions: AST, Brzozowski-derivative matcher, and a parser
for the sublanguage of regex strings that `glob_to_regex` can emit. -/

inductive Rx where
  | void : Rx
  | eps : Rx
  | lit : Char → Rx
  | anyc : Rx
  | nonSlash : Rx
  | seq : Rx → Rx → Rx
  | alt : Rx → Rx → Rx
  | star : Rx → Rx
deriving DecidableEq, Repr

def nullable : Rx → Bool
  | .void => false
  | .eps => true
  | .lit _ => false
  | .anyc => false
  | .nonSlash => false
  | .seq a b => nullable a && nullable b
  | .alt a b => nullable a || nullable b
  | .star _ => true

/-- Smart sequencing (keeps derivatives small; language-preserving). -/
def mkSeq : Rx → Rx → Rx
  | .void, _ => .void
  | _, .void => .void
  | .eps, b => b
  | a, .eps => a
  | a, b => .seq a b

/-- Smart alternation (keeps derivatives small; language-preserving). -/
def mkAlt : Rx → Rx → Rx
  | .void, b => b
  | a, .void => a
  | a, b => .alt a b

def rderiv : Rx → Char → Rx
  | .void, _ => .void
  | .eps, _ => .void
  | .lit c, d => if c = d then .eps else .void
  | .anyc, d => if d = '\n' then .void else .eps
  | .nonSlash, d => if d = '/' then .void else .eps
  | .seq a b, d =>
    if nullable a then mkAlt (mkSeq (rderiv a d) b) (rderiv b d)
    else mkSeq (rderiv a d) b
  | .alt a b, d => mkAlt (rderiv a d) (rderiv b d)
  | .star a, d => mkSeq (rderiv a d) (.star a)

/-- Whole-string match (`re.fullmatch`-style membership test). -/
def rx_match (r : Rx) (s : String) : Bool :=
  nullable (s.toList.foldl rderiv r)

/-- Embedding of the boolean use of `re.Pattern.search`: a match may start
and end anywhere, so pad with `Σ*` on both sides (`Σ` = any character,
newline included — the padding, unlike `.`, must not exclude newlines). -/
def rx_search (r : Rx) (s : String) : Bool :=
  rx_match (.seq (.star (.alt .anyc (.lit '\n'))) (.seq r (.star (.alt .anyc (.lit '\n'))))) s

def mkSeqList (items : List Rx) : Rx := items.foldr Rx.seq Rx.eps

/-- Parser for the regex strings `glob_to_regex` emits: literals, `\`
escapes, `.`, the class `[^/]`, groups, and postfix `*`. Any other
metacharacter yields `none` (such strings cannot arise from the glob
translation). Parses a sequence, stopping at `)` or end of input. -/
def parse_items : Nat → List Char → Option (List Rx × List Char)
  | 0, _ => none
  | _ + 1, [] => some ([], [])
  | fuel + 1, c :: rest =>
    if c = ')' then some ([], c :: rest)
    else do
      let (atom, rest1) ←
        (if c = '\\' then
          match rest with
          | [] => none
          | d :: rest' => some (Rx.lit d, rest')
        else if c = '(' then do
          let (items, rest1) ← parse_items fuel rest
          match rest1 with
          | ')' :: rest2 => some (mkSeqList items, rest2)
          | _ => none
        else if c = '.' then some (Rx.anyc, rest)
        else if c = '[' then
          match rest with
          | '^' :: '/' :: ']' :: rest' => some (Rx.nonSlash, rest')
          | _ => none
        else if c = '*' ∨ c = '?' ∨ c = '+' ∨ c = '|' ∨ c = '$' ∨ c = '^' ∨ c = ']' then none
        else some (Rx.lit c, rest) : Option (Rx × List Char))
      let (atom2, rest2) :=
        match rest1 with
        | '*' :: r2 => (Rx.star atom, r2)
        | _ => (atom, rest1)
      let (more, rest3) ← parse_items fuel rest2
      some (atom2 :: more, rest3)

/-- Embedding of `re.compile` on the strings the analyzer builds. -/
def parseRx (s : String) : Option Rx := do
  let (items, rest) ← parse_items (s.length + 1) s.toList
  match rest with
  | [] => some (mkSeqList items)
  | _ => none

/-! ## `glob_to_regex` and `_compile_patterns` -/

/-- Embedding of `glob_to_regex` (`file_analyzer.py` lines 21-49): the
exact chain of `str.replace` passes of the source, in source order.  Each
pass rewrites the *whole* current string, so later passes do rewrite text
inserted by earlier ones (e.g. the `?` of the `(?:.*/)*` inserted for
`**/` is itself rewritten by the final `?` pass). -/
def glob_to_regex (pattern : String) : String :=
  if pattern = "" then ".*"
  else
    let p := py_replace pattern "\\" "/"
    let p := py_replace p "." "\\."
    let p := py_replace p "+" "\\+"
    let p := py_replace p "(" "\\("
    let p := py_replace p ")" "\\)"
    let p := py_replace p "|" "\\|"
    let p := py_replace p "^" "\\^"
    let p := py_replace p "$" "\\$"
    let p := py_replace p "\x7b" "\\\x7b"
    let p := py_replace p "\x7d" "\\\x7d"
    let p := py_replace p "[" "\\["
    let p := py_replace p "]" "\\]"
    let p := py_replace p "**/" "(?:.*/)*"
    let p := py_replace p "*/" "[^/]*/"
    let p := py_replace p "*" "[^/]*"
    let p := py_replace p "?" "[^/]"
    p

/-- Embedding of `FileAnalyzer._compile_patterns`: an empty list compiles
to the single match-everything pattern `.*`; otherwise whitespace-only
entries are dropped and each remaining glob is translated and compiled.
`none` models a `re.compile` failure (which never occurs on translated
globs). -/
def compile_patterns (patterns : List String) : Option (List Rx) :=
  if patterns.isEmpty then (parseRx ".*").map (fun r => [r])
  else (patterns.filter (fun p => ¬ py_strip p = "")).mapM (fun p => parseRx (glob_to_regex p))

/-! ## Filesystem model

The filesystem the analyzer runs against, as a record of pure functions.
Paths handed to it are absolute, forward-slash strings.  `read p = none`
models any failure of `open(p).read()` (missing file, permission,
decoding — the source catches them all alike).  `walk` lists the files
`os.walk(workspace)` would yield, in walk order. -/

structure FS where
  pexists : String → Bool
  isFile : String → Bool
  read : String → Option String
  walk : List String

/-- Build a concrete filesystem from `(path, content)` entries (content
`none` = present but unreadable) and a list of extra directory paths. -/
def mkFS (files : List (String × Option String)) (dirs : List String) : FS where
  pexists := fun p => files.any (fun e => e.1 == p) || dirs.any (· == p)
  isFile := fun p => files.any (fun e => e.1 == p)
  read := fun p =>
    match files.find? (fun e => e.1 == p) with
    | some e => e.2
    | none => none
  walk := files.map (·.1)

/-! ## The analyzer's configuration (`FileAnalyzer.__init__`) -/

structure Config where
  workspace_dir : String
  extensions : List String
  include_patterns : List Rx
  exclude_patterns : List Rx
deriving DecidableEq

/-- Embedding of `FileAnalyzer.__init__`: compile both pattern lists
(`none` if a compiled regex falls outside the parser's sublanguage, which
no translated glob does). The `workspace_dir` argument is assumed already
absolute, as `Path(workspace_dir).absolute()` leaves such paths alone. -/
def mkFileAnalyzer (workspace_dir : String) (extensions include_pats exclude_pats : List String) :
    Option Config :=
  match compile_patterns include_pats, compile_patterns exclude_pats with
  | some ip, some ep => some ⟨workspace_dir, extensions, ip, ep⟩
  | _, _ => none

/-- First index where workspace and file path parts agree on a
`tmp`/`Temp`/`var` segment (`_should_include_file` lines 84-89). -/
def common_tmp_idx (pairs : List (String × String)) : Option Nat :=
  pairs.findIdx? (fun e => e.1 == e.2 && (e.1 == "tmp" || e.1 == "Temp" || e.1 == "var"))

/-- Embedding of `FileAnalyzer._should_include_file` (lines 70-137).  The
hidden `_is_checking_primary` attribute the source toggles around primary
scans is made an explicit argument. Debug printing has no effect on the
returned boolean and is dropped. -/
def should_include_file (cfg : Config) (is_checking_primary : Bool) (file_path : String) : Bool :=
  let workspace_path := normalize_path cfg.workspace_dir
  let file_path_norm := normalize_path file_path
  let rel_path :=
    if starts_with file_path_norm workspace_path then
      String.mk ((file_path_norm.toList.drop workspace_path.toList.length).dropWhile (· = '/'))
    else
      let ws_parts := py_split workspace_path "/"
      let file_parts := py_split file_path_norm "/"
      match common_tmp_idx (ws_parts.zip file_parts) with
      | some i => String.intercalate "/" (file_parts.drop (i + 1))
      | none => file_path_norm
  if ¬ cfg.extensions.isEmpty ∧
      ¬ cfg.extensions.any (fun ext => ends_with (py_lower file_path_norm) (py_lower ext)) then
    false
  else if cfg.exclude_patterns.any (fun p => rx_search p rel_path) then
    false
  else if is_checking_primary then
    if cfg.include_patterns.isEmpty then true
    else cfg.include_patterns.any (fun p => rx_search p rel_path)
  else true

/-- Embedding of `FileAnalyzer.find_primary_files` (lines 139-185).  The
source's `if changed_files:` is Python truthiness: both `None` and the
empty list take the full-workspace-walk branch. -/
def find_primary_files (fs : FS) (cfg : Config) (changed_files : Option (List String)) :
    List String :=
  match changed_files with
  | some (f :: rest) => (f :: rest).filter (should_include_file cfg true)
  | _ => fs.walk.filter (should_include_file cfg true)

/-! ## Scanners: embeddings of the source's fixed `re.finditer` loops

Each Python pattern is a constant in the source, so each is embedded as a
dedicated scanner with exactly its matching semantics.  Greedy
quantifiers whose class is disjoint from what follows are maximal-munch
(provably equal to the backtracking semantics); the three places where
real backtracking can occur (`\s+([^{]+)` in the contract pattern,
`[^"]+\s+from\s+"` in the aliased-import pattern, and the group
iterations before `::\{` in the brace-import pattern) are embedded by
explicit case analysis over the split the backtracking engine would
find. -/

def lbrace : Char := '\x7b'

def rbrace : Char := '\x7d'

/-- The single-quote character (used by the quote classes `["\']`). -/
def sqc : Char := Char.ofNat 39

def isQuote (c : Char) : Bool := c == '"' || c == sqc

/-- Strip one character satisfying a class. -/
def strip_cls (p : Char → Bool) : List Char → Option (List Char)
  | c :: rest => if p c then some rest else none
  | [] => none

/-- Strip one given character. -/
def strip_ch (c : Char) : List Char → Option (List Char)
  | d :: rest => if c = d then some rest else none
  | [] => none

/-- Generic `re.finditer` driver: try a match at each position, left to
right; a match resumes scanning after its end, a failure advances one
character.  `fuel` bounds the number of steps (the input length suffices:
every pattern embedded here consumes at least one character). -/
def scan_all {α : Type} (matchAt : List Char → Option (α × List Char)) :
    Nat → List Char → List α
  | 0, _ => []
  | _ + 1, [] => []
  | fuel + 1, c :: rest =>
    match matchAt (c :: rest) with
    | some (a, rest') => a :: scan_all matchAt fuel rest'
    | none => scan_all matchAt fuel rest

def scan_string {α : Type} (matchAt : List Char → Option (α × List Char)) (s : String) :
    List α :=
  scan_all matchAt s.length s.toList

/-- The alternation `(?:contract|abstract contract|interface)`; the three
literals are prefix-disjoint, so ordered first-match is exact. -/
def contract_keyword (s : List Char) : Option (List Char) :=
  (strip_pre "contract".toList s) <|> (strip_pre "abstract contract".toList s) <|>
    (strip_pre "interface".toList s)

/-- One match of `(?:contract|abstract contract|interface)\s+(\w+)\s+is\s+([^{]+)`
(`_find_solidity_imports` line 247), returning `(group 1, group 2)` and
the rest after the match.  For the final `\s+([^{]+)` the greedy engine
first takes the whole whitespace run; if a `{` (or the end) follows
immediately it gives one whitespace character back to the capture —
possible only when the run has length at least 2. -/
def contract_match_at (s : List Char) : Option ((String × String) × List Char) := do
  let r1 ← contract_keyword s
  let (_, r2) ← run1 isPyWs r1
  let (name, r3) ← run1 isPyWord r2
  let (_, r4) ← run1 isPyWs r3
  let r5 ← strip_pre "is".toList r4
  let (wsr, r6) ← run1 isPyWs r5
  match run1 (fun c => c != lbrace) r6 with
  | some (cap, r7) => some ((String.mk name, String.mk cap), r7)
  | none =>
    if wsr.length ≥ 2 then
      some ((String.mk name, String.mk [(wsr.getLast?).getD ' ']), r6)
    else none

def contract_matches (content : String) : List (String × String) :=
  scan_string contract_match_at content

/-- `import\s+"([^"]+)"` (import pattern 1). -/
def importP1_at (s : List Char) : Option (String × List Char) := do
  let r1 ← strip_pre "import".toList s
  let (_, r2) ← run1 isPyWs r1
  let r3 ← strip_ch '"' r2
  let (cap, r4) ← run1 (fun c => c != '"') r3
  let r5 ← strip_ch '"' r4
  some (String.mk cap, r5)

/-- `import\s+{[^}]+}\s+from\s+"([^"]+)"` (import pattern 2). -/
def importP2_at (s : List Char) : Option (String × List Char) := do
  let r1 ← strip_pre "import".toList s
  let (_, r2) ← run1 isPyWs r1
  let r3 ← strip_ch lbrace r2
  let (_, r4) ← run1 (fun c => c != rbrace) r3
  let r5 ← strip_ch rbrace r4
  let (_, r6) ← run1 isPyWs r5
  let r7 ← strip_pre "from".toList r6
  let (_, r8) ← run1 isPyWs r7
  let r9 ← strip_ch '"' r8
  let (cap, r10) ← run1 (fun c => c != '"') r9
  let r11 ← strip_ch '"' r10
  some (String.mk cap, r11)

/-- Backtracking condition for `\s+[^"]+\s+from\s+` against the maximal
quote-free region after `as`: some occurrence of `from` must have only
whitespace (at least one) after it up to the region's end, and before it
at least three characters starting and ending in whitespace (whitespace
head = `\s+`, whitespace last = the `\s+` before `from`, something in
between = `[^"]+`; any such region splits accordingly, since `[^"]` also
accepts whitespace). -/
def p3_region_ok (region : List Char) : Bool :=
  (List.range region.length).any (fun i =>
    let pre := region.take i
    let post := region.drop i
    match strip_pre "from".toList post with
    | some w2 =>
      decide (w2.length ≥ 1) && w2.all isPyWs && decide (pre.length ≥ 3) &&
        (match pre.head? with | some c => isPyWs c | none => false) &&
        (match pre.getLast? with | some c => isPyWs c | none => false)
    | none => false)

/-- `import\s+\*\s+as\s+[^"]+\s+from\s+"([^"]+)"` (import pattern 3). -/
def importP3_at (s : List Char) : Option (String × List Char) := do
  let r1 ← strip_pre "import".toList s
  let (_, r2) ← run1 isPyWs r1
  let r3 ← strip_ch '*' r2
  let (_, r4) ← run1 isPyWs r3
  let r5 ← strip_pre "as".toList r4
  let (region, r6) := take_run (fun c => c != '"') r5
  let r7 ← strip_ch '"' r6
  if p3_region_ok region then do
    let (cap, r8) ← run1 (fun c => c != '"') r7
    let r9 ← strip_ch '"' r8
    some (String.mk cap, r9)
  else none

/-- `import\s+{[^}]+}\s+from\s+["\']([^"\']+)["\']` (import pattern 4). -/
def importP4_at (s : List Char) : Option (String × List Char) := do
  let r1 ← strip_pre "import".toList s
  let (_, r2) ← run1 isPyWs r1
  let r3 ← strip_ch lbrace r2
  let (_, r4) ← run1 (fun c => c != rbrace) r3
  let r5 ← strip_ch rbrace r4
  let (_, r6) ← run1 isPyWs r5
  let r7 ← strip_pre "from".toList r6
  let (_, r8) ← run1 isPyWs r7
  let r9 ← strip_cls isQuote r8
  let (cap, r10) ← run1 (fun c => ¬ isQuote c) r9
  let r11 ← strip_cls isQuote r10
  some (String.mk cap, r11)

/-- `import\s+[\'"](.*?)[\'"]` (import pattern 5): the lazy `(.*?)` stops
at the first quote; `.` cannot cross a newline. -/
def importP5_at (s : List Char) : Option (String × List Char) := do
  let r1 ← strip_pre "import".toList s
  let (_, r2) ← run1 isPyWs r1
  let r3 ← strip_cls isQuote r2
  let (cap, r4) := take_run (fun c => ¬ isQuote c && c != '\n') r3
  let r5 ← strip_cls isQuote r4
  some (String.mk cap, r5)

/-- All captures of the five Solidity import patterns, in the source's
pattern order (`_find_solidity_imports` lines 284-290). -/
def sol_import_captures (content : String) : List String :=
  scan_string importP1_at content ++ scan_string importP2_at content ++
    scan_string importP3_at content ++ scan_string importP4_at content ++
    scan_string importP5_at content

/-! ### Rust scanners (`_find_rust_imports` lines 316-325) -/

/-- The class `[^:;\s]` of a Rust module-path segment. -/
def isRseg (c : Char) : Bool := ¬ (c == ':' || c == ';' || isPyWs c)

/-- `::?` — one colon, then greedily an optional second (the group that
follows cannot start with a colon, so taking it when present is exact). -/
def rust_colon_part (s : List Char) : Option (List Char) := do
  let r1 ← strip_ch ':' s
  match r1 with
  | ':' :: r2 => some r2
  | _ => some r1

/-- States of the greedy iteration `(?:::[^:;\s]+)*`: capture and rest
after keeping 0, 1, 2, … iterations, in that order. -/
def rust_iter_states (fuel : Nat) (cap : List Char) (s : List Char) :
    List (List Char × List Char) :=
  (cap, s) ::
    match fuel with
    | 0 => []
    | fuel + 1 =>
      match strip_pre [':', ':'] s with
      | some r1 =>
        match run1 isRseg r1 with
        | some (seg, r2) => rust_iter_states fuel (cap ++ ':' :: ':' :: seg) r2
        | none => []
      | none => []

/-- Tail of pattern `use\s+(?:crate|super|self)?::?([^:;\s]+(?:::[^:;\s]+)*)`
after the optional keyword: colon(s), then the greedy group. -/
def rust_r1_tail (s : List Char) : Option (String × List Char) := do
  let r1 ← rust_colon_part s
  let (seg1, r2) ← run1 isRseg r1
  let st := (rust_iter_states r2.length seg1 r2).getLast?
  match st with
  | some (cap, r3) => some (String.mk cap, r3)
  | none => none

/-- Ordered alternation for the optional `(?:crate|super|self)?`: the
keyword branch is tried first (greedy `?`); if its continuation fails the
empty branch is tried.  The three keywords are prefix-disjoint. -/
def rust_with_keyword (tail : List Char → Option (String × List Char)) (s : List Char) :
    Option (String × List Char) :=
  match (strip_pre "crate".toList s) <|> (strip_pre "super".toList s) <|>
      (strip_pre "self".toList s) with
  | some rk => (tail rk) <|> (tail s)
  | none => tail s

/-- `use\s+(?:crate|super|self)?::?([^:;\s]+(?:::[^:;\s]+)*)` (Rust pattern 1). -/
def rustR1_at (s : List Char) : Option (String × List Char) := do
  let r1 ← strip_pre "use".toList s
  let (_, r2) ← run1 isPyWs r1
  rust_with_keyword rust_r1_tail r2

/-- An identifier `[a-zA-Z_][a-zA-Z0-9_]*` with the rest. -/
def ident_at : List Char → Option (List Char × List Char)
  | c :: rest =>
    if isIdentStart c then
      let r := take_run isPyWord rest
      some (c :: r.1, r.2)
    else none
  | [] => none

/-- `mod\s+([a-zA-Z_][a-zA-Z0-9_]*)\s*;` (Rust pattern 2). -/
def rustR2_at (s : List Char) : Option (String × List Char) := do
  let r1 ← strip_pre "mod".toList s
  let (_, r2) ← run1 isPyWs r1
  let (id, r3) ← ident_at r2
  let r4 := (take_run isPyWs r3).2
  let r5 ← strip_ch ';' r4
  some (String.mk id, r5)

/-- `extern\s+crate\s+([a-zA-Z_][a-zA-Z0-9_]*)` (Rust pattern 3). -/
def rustR3_at (s : List Char) : Option (String × List Char) := do
  let r1 ← strip_pre "extern".toList s
  let (_, r2) ← run1 isPyWs r1
  let r3 ← strip_pre "crate".toList r2
  let (_, r4) ← run1 isPyWs r3
  let (id, r5) ← ident_at r4
  some (String.mk id, r5)

/-- The suffix `::\{[^}]+\}` of Rust pattern 4. -/
def rust_r4_suffix (s : List Char) : Option (List Char) := do
  let r1 ← strip_pre [':', ':'] s
  let r2 ← strip_ch lbrace r1
  let (_, r3) ← run1 (fun c => c != rbrace) r2
  let r4 ← strip_ch rbrace r3
  some r4

/-- Tail of `use\s+(?:crate|super|self)?::?([^:;\s]+(?:::[^:;\s]+)*)::\{[^}]+\}`:
the greedy group backtracks by dropping its last iterations until the
`::\{…\}` suffix matches (most iterations kept wins). -/
def rust_r4_tail (s : List Char) : Option (String × List Char) := do
  let r1 ← rust_colon_part s
  let (seg1, r2) ← run1 isRseg r1
  let states := rust_iter_states r2.length seg1 r2
  states.reverse.findSome? (fun st =>
    (rust_r4_suffix st.2).map (fun r => (String.mk st.1, r)))

/-- `use …::\{…\}` (Rust pattern 4, brace-grouped imports). -/
def rustR4_at (s : List Char) : Option (String × List Char) := do
  let r1 ← strip_pre "use".toList s
  let (_, r2) ← run1 isPyWs r1
  rust_with_keyword rust_r4_tail r2

/-- All captures of the four Rust patterns, in source order. -/
def rust_import_captures (content : String) : List String :=
  scan_string rustR1_at content ++ scan_string rustR2_at content ++
    scan_string rustR3_at content ++ scan_string rustR4_at content

/-! ## Path resolvers -/

/-- One candidate check of `_resolve_import_path` (shared by both its
branches, which duplicate it in the source): normalize, accept an
existing regular file, else retry with `.sol` appended when absent. -/
def candidate_ok (fs : FS) (p : String) : Option String :=
  let n := normalize_path p
  if fs.pexists n && fs.isFile n then some n
  else if ¬ ends_with n ".sol" then
    let ne := n ++ ".sol"
    if fs.pexists ne && fs.isFile ne then some ne else none
  else none

def last_seg (p : String) : String := ((py_split p "/").getLast?).getD ""

/-- Embedding of `FileAnalyzer._resolve_import_path` (lines 399-457):
relative imports (`./`, `../`) resolve against the current file's
directory; others try the fixed candidate list in source order and return
the first existing regular file. -/
def resolve_import_path (fs : FS) (cfg : Config) (import_path0 current_file : String) :
    Option String :=
  let workspace_dir_norm := normalize_path cfg.workspace_dir
  let current_file_norm := normalize_path current_file
  let import_path := py_replace import_path0 "\\" "/"
  if starts_with import_path "./" || starts_with import_path "../" then
    candidate_ok fs (path_join (parent_path current_file_norm) import_path)
  else
    let possible_paths : List String := [
      path_join workspace_dir_norm import_path,
      path_join (path_join workspace_dir_norm "src") import_path,
      path_join (path_join workspace_dir_norm "contracts") import_path,
      path_join (path_join workspace_dir_norm "interfaces") import_path,
      path_join (path_join workspace_dir_norm "lib") import_path,
      path_join (parent_path current_file_norm) import_path,
      path_join (path_join (parent_path current_file_norm) "..") import_path,
      path_join (path_join (parent_path current_file_norm) "interfaces") import_path,
      path_join (path_join (parent_path current_file_norm) "libraries") import_path,
      path_join (path_join workspace_dir_norm (py_replace import_path ".sol" ""))
        (last_seg import_path)]
    possible_paths.findSome? (candidate_ok fs)

def seg_count (p : String) : Nat := (py_split p "/").length

/-- Loop body of `_find_cargo_root` (lines 338-345): the `while` guard
(`current_dir != current_dir.parent`) is tested *before* the manifest
check, so the filesystem root itself is never checked; exhausted fuel
cannot occur with fuel above the directory depth. -/
def find_cargo_root_aux (fs : FS) (ws : String) : Nat → String → String
  | 0, _ => ws
  | fuel + 1, dir =>
    if parent_path dir = dir then ws
    else if fs.pexists (path_join dir "Cargo.toml") then dir
    else find_cargo_root_aux fs ws fuel (parent_path dir)

/-- Embedding of `FileAnalyzer._find_cargo_root`. -/
def find_cargo_root (fs : FS) (cfg : Config) (current_file : String) : String :=
  find_cargo_root_aux fs cfg.workspace_dir (seg_count (parent_path current_file) + 1)
    (parent_path current_file)

def iter_parent : Nat → String → String
  | 0, d => d
  | n + 1, d => iter_parent n (parent_path d)

/-- Segment walk of `_resolve_rust_import_path` (lines 368-386): for each
segment try `<part>.rs`, `<part>/mod.rs`, `<part>/lib.rs`; the first that
exists is collected and resolution continues from its directory, else
resolution descends into the same-named subdirectory. -/
def rust_walk_parts (fs : FS) : List String → String → List String → List String
  | [], _, acc => acc
  | part :: rest, dir, acc =>
    if part = "" ∨ part = "self" ∨ part = "crate" ∨ part = "super" then
      rust_walk_parts fs rest dir acc
    else
      let locs := [path_join dir (part ++ ".rs"),
                   path_join (path_join dir part) "mod.rs",
                   path_join (path_join dir part) "lib.rs"]
      match locs.find? (fun l => fs.pexists l) with
      | some loc => rust_walk_parts fs rest (parent_path loc) (loc :: acc)
      | none => rust_walk_parts fs rest (path_join dir part) acc

/-- Embedding of `FileAnalyzer._resolve_rust_import_path` (lines 347-391):
a leading `crate` repositions at the Cargo root, a leading run of
`super`s ascends one directory per occurrence (the source counts *all*
`super` segments and drops that many leading segments), then the segment
walk collects every file found along the way. -/
def resolve_rust_import_path (fs : FS) (cfg : Config) (import_path current_file : String) :
    List String :=
  let path_parts := py_split import_path "::"
  let current_dir := parent_path current_file
  if starts_with import_path "crate" then
    rust_walk_parts fs (path_parts.drop 1) (find_cargo_root fs cfg current_file) []
  else if starts_with import_path "super" then
    let super_count := path_parts.countP (· = "super")
    rust_walk_parts fs (path_parts.drop super_count) (iter_parent super_count current_dir) []
  else
    rust_walk_parts fs path_parts current_dir []

/-- Embedding of `FileAnalyzer._find_rust_imports`: resolve each capture,
union the results (no recursion into the found files).  Sets are
represented by lists up to membership; duplicates are erased where the
source iterates the set (`find_dependencies_st`). -/
def find_rust_imports (fs : FS) (cfg : Config) (content current_file : String) : List String :=
  (rust_import_captures content).foldl
    (fun acc cap => acc ++ resolve_rust_import_path fs cfg cap current_file) []

/-! ## The dependency traversal

`visited` is the Python function-level mutable set, threaded as state;
like the dependency accumulators it is a list read only through
membership (the traversal adds a path at most once, so it stays
duplicate-free).  `trace` is ghost instrumentation: the list of paths on
which the traversal attempts `open(...)`, recorded to state the
read-at-most-once property; no definition reads it back. -/

structure St where
  visited : List String
  trace : List String

def MAX_DEPTH : Nat := 10

/-- Candidate loop of the inheritance pass (`_find_solidity_imports`
lines 270-281): `for … else` with `break` on the first candidate that
resolves to an unvisited file; a candidate that resolves to an
already-visited file does *not* break (the `if` guard fails), so the
remaining candidates are still tried. -/
def try_candidates (fs : FS) (cfg : Config) (recur : String → St → List String × St)
    (current_file : String) : List String → St → List String × St
  | [], st => ([], st)
  | cand :: rest, st =>
    match resolve_import_path fs cfg cand current_file with
    | some rp =>
      if rp ∈ st.visited then try_candidates fs cfg recur current_file rest st
      else
        let r := recur rp st
        (rp :: r.1, r.2)
    | none => try_candidates fs cfg recur current_file rest st

/-- The ranked candidate filenames for an inherited contract name
(`_find_solidity_imports` lines 260-268). -/
def inherit_candidates (c : String) : List String :=
  [c ++ ".sol", "I" ++ c ++ ".sol", c ++ "Storage.sol", c ++ "Logic.sol",
   "contracts/" ++ c ++ ".sol", "src/" ++ c ++ ".sol", "interfaces/I" ++ c ++ ".sol"]

def process_bases (fs : FS) (cfg : Config) (recur : String → St → List String × St)
    (current_file : String) : List String → List String × St → List String × St
  | [], acc => acc
  | b :: rest, acc =>
    let r := try_candidates fs cfg recur current_file (inherit_candidates b) acc.2
    process_bases fs cfg recur current_file rest (acc.1 ++ r.1, r.2)

/-- Declaration pass: split each match's base list on commas, strip, and
resolve each base through the candidate loop. -/
def process_contract_matches (fs : FS) (cfg : Config)
    (recur : String → St → List String × St) (current_file : String) :
    List (String × String) → List String × St → List String × St
  | [], acc => acc
  | m :: rest, acc =>
    let bases := (py_split m.2 ",").map py_strip
    process_contract_matches fs cfg recur current_file rest
      (process_bases fs cfg recur current_file bases acc)

/-- Import-statement pass (lines 292-301): resolve each capture; an
unvisited resolution is added and immediately expanded (no `break`). -/
def process_import_captures (fs : FS) (cfg : Config)
    (recur : String → St → List String × St) (current_file : String) :
    List String → List String × St → List String × St
  | [], acc => acc
  | cap :: rest, acc =>
    match resolve_import_path fs cfg cap current_file with
    | some rp =>
      if rp ∈ acc.2.visited then process_import_captures fs cfg recur current_file rest acc
      else
        let r := recur rp acc.2
        process_import_captures fs cfg recur current_file rest (acc.1 ++ rp :: r.1, r.2)
    | none => process_import_captures fs cfg recur current_file rest acc

/-- Embedding of `FileAnalyzer._find_solidity_imports`, parameterized by
the recursive expansion `recur` (the source's mutually recursive call to
`_find_file_dependencies` at the incremented depth). -/
def find_solidity_imports (fs : FS) (cfg : Config)
    (recur : String → St → List String × St) (content current_file : String) (st : St) :
    List String × St :=
  let acc1 := process_contract_matches fs cfg recur current_file
    (contract_matches content) ([], st)
  process_import_captures fs cfg recur current_file (sol_import_captures content) acc1

/-- Embedding of `FileAnalyzer._find_file_dependencies` (lines 211-239).
`fuel = MAX_DEPTH + 1 - depth`, so the source guard `depth > MAX_DEPTH`
is exactly `fuel = 0` (the Solidity pass passes `depth + 1` on, i.e.
`fuel - 1`).  A failing read (`fs.read = none`) is the caught exception:
the file still enters `visited` and contributes no dependencies. -/
def find_file_dependencies (fs : FS) (cfg : Config) :
    Nat → String → St → List String × St
  | 0, _, st => ([], st)
  | fuel + 1, file_path, st =>
    if file_path ∈ st.visited then ([], st)
    else
      let st1 : St := ⟨file_path :: st.visited, st.trace ++ [file_path]⟩
      match fs.read file_path with
      | none => ([], st1)
      | some content =>
        if path_suffix file_path = ".sol" then
          find_solidity_imports fs cfg
            (fun q st' => find_file_dependencies fs cfg fuel q st') content file_path st1
        else if path_suffix file_path = ".rs" then
          (find_rust_imports fs cfg content file_path, st1)
        else
          ([], st1)

/-- Embedding of `FileAnalyzer.find_dependencies` (lines 187-209), with
the final state exposed: expand every primary file sharing one visited
set, drop the primary files themselves, keep what the classifier accepts
in dependency mode, and return the sorted list.  `dedup` models
iterating the Python `dependencies` set (each member once). -/
def find_dependencies_st (fs : FS) (cfg : Config) (primary_files : List String) :
    List String × St :=
  let r := primary_files.foldl
    (fun (acc : List String × St) f =>
      let d := find_file_dependencies fs cfg (MAX_DEPTH + 1) f acc.2
      (acc.1 ++ d.1, d.2))
    ([], ⟨[], []⟩)
  let deps := (r.1.dedup).filter (fun d => ¬ d ∈ primary_files)
  let filtered := deps.filter (fun d => should_include_file cfg false d)
  (sort_strings filtered, r.2)

def find_dependencies (fs : FS) (cfg : Config) (primary_files : List String) : List String :=
  (find_dependencies_st fs cfg primary_files).1

/-! ## Properties of the output order -/

theorem chars_le_total : ∀ a b : List Char, chars_le a b = true ∨ chars_le b a = true
  | [], _ => Or.inl rfl
  | _ :: _, [] => Or.inr rfl
  | a :: as, b :: bs => by
    simp only [chars_le]
    rcases Nat.lt_trichotomy a.toNat b.toNat with h | h | h
    · left
      simp [h]
    · have h2 : ¬ a.toNat < b.toNat := by omega
      have h3 : ¬ b.toNat < a.toNat := by omega
      simp only [h2, h3, if_false]
      exact chars_le_total as bs
    · right
      simp [h]

theorem chars_le_trans : ∀ {a b c : List Char},
    chars_le a b = true → chars_le b c = true → chars_le a c = true
  | [], _, _, _, _ => rfl
  | _ :: _, [], _, hab, _ => by simp [chars_le] at hab
  | _ :: _, _ :: _, [], _, hbc => by simp [chars_le] at hbc
  | x :: xs, y :: ys, z :: zs, hab, hbc => by
    simp only [chars_le] at hab hbc ⊢
    by_cases hxy : x.toNat < y.toNat
    · by_cases hzy : z.toNat < y.toNat
      · by_cases hyz : y.toNat < z.toNat
        · simp [show x.toNat < z.toNat by omega]
        · simp [hyz, hzy] at hbc
      · simp [show x.toNat < z.toNat by omega]
    · by_cases hyx : y.toNat < x.toNat
      · simp [hxy, hyx] at hab
      · by_cases hyz : y.toNat < z.toNat
        · simp [show x.toNat < z.toNat by omega]
        · by_cases hzy : z.toNat < y.toNat
          · simp [hyz, hzy] at hbc
          · have hxz : ¬ x.toNat < z.toNat := by omega
            have hzx : ¬ z.toNat < x.toNat := by omega
            simp only [hxy, hyx, if_false] at hab
            simp only [hyz, hzy, if_false] at hbc
            simp only [hxz, hzx, if_false]
            exact chars_le_trans hab hbc

theorem str_le_total (a b : String) : str_le a b = true ∨ str_le b a = true :=
  chars_le_total a.toList b.toList

theorem str_le_trans {a b c : String} (h1 : str_le a b = true) (h2 : str_le b c = true) :
    str_le a c = true :=
  chars_le_trans h1 h2

instance : IsTotal String (fun a b => str_le a b = true) := ⟨str_le_total⟩

instance : IsTrans String (fun a b => str_le a b = true) := ⟨fun _ _ _ => str_le_trans⟩

theorem sort_strings_sorted (l : List String) :
    (sort_strings l).Sorted (fun a b => str_le a b = true) :=
  List.sorted_insertionSort _ l

theorem sort_strings_perm (l : List String) : (sort_strings l).Perm l :=
  List.perm_insertionSort _ l

theorem mem_sort_strings {x : String} {l : List String} : x ∈ sort_strings l ↔ x ∈ l :=
  (sort_strings_perm l).mem_iff

theorem sort_strings_nodup {l : List String} (h : l.Nodup) : (sort_strings l).Nodup :=
  ((sort_strings_perm l).nodup_iff).mpr h

/-! ## State evolution of the traversal

One invariant carries every visited-set/trace claim: across any piece of
the traversal the state grows by a list `ts` of freshly opened files —
appended to the trace, pairwise distinct, previously unvisited, and
exactly the growth of the visited set (in particular the visited set is
never cleared). -/

def StGrows (st st' : St) (ts : List String) : Prop :=
  st'.trace = st.trace ++ ts ∧ ts.Nodup ∧ (∀ x ∈ ts, x ∉ st.visited) ∧
    ∀ x, x ∈ st'.visited ↔ x ∈ st.visited ∨ x ∈ ts

theorem stGrows_rfl (st : St) : StGrows st st [] := by
  simp [StGrows]

theorem stGrows_trans {st st' st'' : St} {ts ts' : List String}
    (h1 : StGrows st st' ts) (h2 : StGrows st' st'' ts') :
    StGrows st st'' (ts ++ ts') := by
  obtain ⟨t1, n1, f1, v1⟩ := h1
  obtain ⟨t2, n2, f2, v2⟩ := h2
  refine ⟨by simp [t2, t1], ?_, ?_, ?_⟩
  · rw [List.nodup_append]
    exact ⟨n1, n2, fun x hx hx' => f2 x hx' ((v1 x).mpr (Or.inr hx))⟩
  · intro x hx
    rcases List.mem_append.mp hx with h | h
    · exact f1 x h
    · exact fun hv => f2 x h ((v1 x).mpr (Or.inl hv))
  · intro x
    rw [v2, v1, List.mem_append]
    tauto

/-- The recursive-expansion parameter only ever grows the state. -/
def RecurOK (recur : String → St → List String × St) : Prop :=
  ∀ q st, ∃ ts, StGrows st (recur q st).2 ts

theorem try_candidates_grows {fs : FS} {cfg : Config}
    {recur : String → St → List String × St} {cf : String} (hr : RecurOK recur) :
    ∀ (cands : List String) (st : St),
      ∃ ts, StGrows st (try_candidates fs cfg recur cf cands st).2 ts
  | [], st => ⟨[], stGrows_rfl st⟩
  | cand :: rest, st => by
    simp only [try_candidates]
    cases resolve_import_path fs cfg cand cf with
    | none => exact try_candidates_grows hr rest st
    | some rp =>
      by_cases h : rp ∈ st.visited
      · simp only [h, if_true]
        exact try_candidates_grows hr rest st
      · simp only [h, if_false]
        exact hr rp st

theorem process_bases_grows {fs : FS} {cfg : Config}
    {recur : String → St → List String × St} {cf : String} (hr : RecurOK recur) :
    ∀ (bases : List String) (acc : List String × St),
      ∃ ts, StGrows acc.2 (process_bases fs cfg recur cf bases acc).2 ts
  | [], acc => ⟨[], stGrows_rfl acc.2⟩
  | b :: rest, acc => by
    simp only [process_bases]
    obtain ⟨ts1, h1⟩ := @try_candidates_grows fs cfg recur cf hr (inherit_candidates b) acc.2
    obtain ⟨ts2, h2⟩ := process_bases_grows hr rest
      (acc.1 ++ (try_candidates fs cfg recur cf (inherit_candidates b) acc.2).1,
        (try_candidates fs cfg recur cf (inherit_candidates b) acc.2).2)
    exact ⟨ts1 ++ ts2, stGrows_trans h1 h2⟩

theorem process_contract_matches_grows {fs : FS} {cfg : Config}
    {recur : String → St → List String × St} {cf : String} (hr : RecurOK recur) :
    ∀ (ms : List (String × String)) (acc : List String × St),
      ∃ ts, StGrows acc.2 (process_contract_matches fs cfg recur cf ms acc).2 ts
  | [], acc => ⟨[], stGrows_rfl acc.2⟩
  | m :: rest, acc => by
    simp only [process_contract_matches]
    obtain ⟨ts1, h1⟩ := @process_bases_grows fs cfg recur cf hr
      ((py_split m.2 ",").map py_strip) acc
    obtain ⟨ts2, h2⟩ := process_contract_matches_grows hr rest
      (process_bases fs cfg recur cf ((py_split m.2 ",").map py_strip) acc)
    exact ⟨ts1 ++ ts2, stGrows_trans h1 h2⟩

theorem process_import_captures_grows {fs : FS} {cfg : Config}
    {recur : String → St → List String × St} {cf : String} (hr : RecurOK recur) :
    ∀ (caps : List String) (acc : List String × St),
      ∃ ts, StGrows acc.2 (process_import_captures fs cfg recur cf caps acc).2 ts
  | [], acc => ⟨[], stGrows_rfl acc.2⟩
  | cap :: rest, acc => by
    simp only [process_import_captures]
    cases resolve_import_path fs cfg cap cf with
    | none => exact process_import_captures_grows hr rest acc
    | some rp =>
      by_cases h : rp ∈ acc.2.visited
      · simp only [h, if_true]
        exact process_import_captures_grows hr rest acc
      · simp only [h, if_false]
        obtain ⟨ts1, h1⟩ := hr rp acc.2
        obtain ⟨ts2, h2⟩ := process_import_captures_grows hr rest
          (acc.1 ++ rp :: (recur rp acc.2).1, (recur rp acc.2).2)
        exact ⟨ts1 ++ ts2, stGrows_trans h1 h2⟩

theorem find_solidity_imports_grows {fs : FS} {cfg : Config}
    {recur : String → St → List String × St} {content cf : String} (hr : RecurOK recur)
    (st : St) : ∃ ts, StGrows st (find_solidity_imports fs cfg recur content cf st).2 ts := by
  simp only [find_solidity_imports]
  obtain ⟨ts1, h1⟩ := @process_contract_matches_grows fs cfg recur cf hr
    (contract_matches content) ([], st)
  obtain ⟨ts2, h2⟩ := @process_import_captures_grows fs cfg recur cf hr
    (sol_import_captures content)
    (process_contract_matches fs cfg recur cf (contract_matches content) ([], st))
  exact ⟨ts1 ++ ts2, stGrows_trans h1 h2⟩

theorem find_file_dependencies_grows (fs : FS) (cfg : Config) :
    ∀ (fuel : Nat) (q : String) (st : St),
      ∃ ts, StGrows st (find_file_dependencies fs cfg fuel q st).2 ts
  | 0, _, st => ⟨[], stGrows_rfl st⟩
  | fuel + 1, q, st => by
    have hrec : RecurOK (fun q' st' => find_file_dependencies fs cfg fuel q' st') :=
      fun q' st' => find_file_dependencies_grows fs cfg fuel q' st'
    simp only [find_file_dependencies]
    by_cases h : q ∈ st.visited
    · simp only [h, if_true]
      exact ⟨[], stGrows_rfl st⟩
    · simp only [h, if_false]
      have hst1 : StGrows st ⟨q :: st.visited, st.trace ++ [q]⟩ [q] := by
        refine ⟨rfl, List.nodup_singleton q, ?_, ?_⟩
        · intro x hx
          rw [List.mem_singleton] at hx
          subst hx
          exact h
        · intro x
          simp [List.mem_cons, or_comm]
      cases fs.read q with
      | none => exact ⟨[q], hst1⟩
      | some content =>
        by_cases hsol : path_suffix q = ".sol"
        · simp only [hsol, if_true]
          obtain ⟨ts, hts⟩ :=
            @find_solidity_imports_grows fs cfg
              (fun q' st' => find_file_dependencies fs cfg fuel q' st') content q hrec
              ⟨q :: st.visited, st.trace ++ [q]⟩
          exact ⟨[q] ++ ts, stGrows_trans hst1 hts⟩
        · by_cases hrs : path_suffix q = ".rs"
          · simp only [hsol, hrs, if_false, if_true]
            exact ⟨[q], hst1⟩
          · simp only [hsol, hrs, if_false]
            exact ⟨[q], hst1⟩

theorem find_deps_fold_grows (fs : FS) (cfg : Config) :
    ∀ (prim : List String) (acc : List String × St),
      ∃ ts, StGrows acc.2
        (prim.foldl (fun (acc : List String × St) f =>
          let d := find_file_dependencies fs cfg (MAX_DEPTH + 1) f acc.2
          (acc.1 ++ d.1, d.2)) acc).2 ts
  | [], acc => ⟨[], stGrows_rfl acc.2⟩
  | f :: rest, acc => by
    simp only [List.foldl]
    obtain ⟨ts1, h1⟩ := find_file_dependencies_grows fs cfg (MAX_DEPTH + 1) f acc.2
    obtain ⟨ts2, h2⟩ := find_deps_fold_grows fs cfg rest
      (acc.1 ++ (find_file_dependencies fs cfg (MAX_DEPTH + 1) f acc.2).1,
        (find_file_dependencies fs cfg (MAX_DEPTH + 1) f acc.2).2)
    exact ⟨ts1 ++ ts2, stGrows_trans h1 h2⟩

/-! ## Concrete fixtures used by the claim theorems -/

def default_config : Config := ⟨"", [], [], []⟩

/-- Analyzer configured with workspace `/ws`, extensions `[.sol]`, no
include patterns, and the (never-matching) exclude glob `zzz`. -/
def cfgA : Config := (mkFileAnalyzer "/ws" [".sol"] [] ["zzz"]).getD default_config

/-- Analyzer configured with an *empty* exclude-pattern list. -/
def cfg_empty_excludes : Config := (mkFileAnalyzer "/ws" [".sol"] [] []).getD default_config

/-- Workspace of the inheritance scenario: `Vault.sol` inherits from
`Ownable` (whose sibling file exists) and `Pausable` (which resolves
nowhere). -/
def fsC5 : FS := mkFS
  [("/ws/Vault.sol", some "contract Vault is Ownable, Pausable \x7b\x7d"),
   ("/ws/Ownable.sol", some "contract Ownable \x7b\x7d")] []

def cyc (i : Nat) : String := "/ws/f" ++ toString i ++ ".sol"

def cycImp (i : Nat) : String := "import \"./f" ++ toString i ++ ".sol\";"

/-- A synthetic cyclic import chain of length 13 (> 10): `f0 → f1 → … →
f12 → f0`, each file importing the next. -/
def fsCyc : FS := mkFS ((List.range 13).map (fun i => (cyc i, some (cycImp ((i + 1) % 13))))) []

/-- Rust workspace: manifest at `/ws`, both `utils/mod.rs` and
`utils/helpers.rs` present (`utils.rs` absent), plus `a/b.rs` reachable
only by descending through the file-less segment `a`. -/
def fsC6 : FS := mkFS
  [("/ws/Cargo.toml", some ""), ("/ws/utils/mod.rs", some ""),
   ("/ws/utils/helpers.rs", some ""),
   ("/ws/src/lib.rs", some "use crate::utils::helpers;"),
   ("/ws/a/b.rs", some "")]
  ["/ws", "/ws/utils", "/ws/src", "/ws/a"]

/-- Workspace with an unreadable primary file next to a readable one. -/
def fsC7 : FS := mkFS
  [("/ws/bad.sol", none), ("/ws/good.sol", some "import \"./dep.sol\";"),
   ("/ws/dep.sol", some "")] []

def fsC10 : FS := mkFS [("/ws/a.sol", some "")] []

/-- Compile one glob and run the boolean search, as the classifier does
with each configured pattern (`false` on a regex outside the parser's
sublanguage, which cannot arise from the translation). -/
def glob_search (pat path : String) : Bool :=
  match parseRx (glob_to_regex pat) with
  | some r => rx_search r path
  | none => false

/-! ## Claim theorems -/

/-- Claim C1 (code bug evidence).  The claim says an empty exclude list
matches nothing, so a path passing the extension filter is not rejected
and in dependency mode is accepted.  In the code an empty list compiles
to the single match-everything pattern `.*` (`_compile_patterns` line
19), which `_should_include_file` then applies as an *exclude*: the path
`/ws/a.sol` passes the `.sol` extension filter yet is rejected in both
dependency and primary mode. -/
theorem empty_exclude_patterns_reject_every_path :
    mkFileAnalyzer "/ws" [".sol"] [] [] = some cfg_empty_excludes ∧
    cfg_empty_excludes.exclude_patterns = [Rx.seq (Rx.star Rx.anyc) Rx.eps] ∧
    ends_with (py_lower (normalize_path "/ws/a.sol")) (py_lower ".sol") = true ∧
    should_include_file cfg_empty_excludes false "/ws/a.sol" = false ∧
    should_include_file cfg_empty_excludes true "/ws/a.sol" = false := by
  decide

/-- Claim C2 (code bug evidence).  The claim says the compiled pattern
for `tests/**/*.sol` matches `tests/unit/Foo.sol` and `tests/Foo.sol`.
The sequential `str.replace` passes of `glob_to_regex` rewrite the
`(?:.*/)*` inserted for `**/` — in particular its `?` becomes `[^/]` —
yielding a regex that demands a literal `:`, so neither path matches.
The `*/mocks/*` halves of the claim do hold. -/
theorem double_star_glob_translation_mangled :
    glob_to_regex "tests/**/*.sol" = "tests/([^/]:.[^/][^/]*/)[^/]*[^/]*\\.sol" ∧
    (parseRx (glob_to_regex "tests/**/*.sol")).isSome = true ∧
    glob_search "tests/**/*.sol" "tests/unit/Foo.sol" = false ∧
    glob_search "tests/**/*.sol" "tests/Foo.sol" = false ∧
    glob_search "*/mocks/*" "mocks/Mock.sol" = false ∧
    glob_search "*/mocks/*" "contracts/mocks/Mock.sol" = true := by
  decide

/-- Claim C3.  `find_dependencies` terminates on every filesystem (the
embedding is a total function; the source's guard `depth > MAX_DEPTH` is
exactly `fuel = 0` under `fuel = MAX_DEPTH + 1 - depth`): expansion at
exhausted depth returns immediately with no dependencies, and on the
synthetic cyclic import chain of length 13 > 10 the result is a finite,
non-empty partial list rather than a hang or a crash. -/
theorem depth_guard_and_cycle_chain_partial_result :
    (∀ (fs : FS) (cfg : Config) (q : String) (st : St),
        find_file_dependencies fs cfg 0 q st = ([], st)) ∧
    0 < (find_dependencies fsCyc cfgA [cyc 0]).length :=
  ⟨fun _ _ _ _ => rfl, by decide⟩

/-- Every dependency list is built by sorting a filter of a filter of the
deduplicated accumulator, the inner filter dropping primary files. -/
theorem mem_filtered_not_prim {x : String} {prim l : List String} {p : String → Bool}
    (h : x ∈ sort_strings ((l.filter (fun d => ¬ d ∈ prim)).filter p)) : x ∉ prim := by
  rw [mem_sort_strings, List.mem_filter] at h
  have h2 := (List.mem_filter.mp h.1).2
  simpa using h2

/-- Claim C4.  The result of `find_dependencies` is disjoint from the
primary-file set: paths equal (as path values) to a primary file are
removed before filtering and never appear in the result. -/
theorem find_dependencies_disjoint_from_primaries (fs : FS) (cfg : Config)
    (prim : List String) (x : String) (hx : x ∈ find_dependencies fs cfg prim) :
    x ∉ prim :=
  mem_filtered_not_prim hx

/-- Witness for C4 at a concrete input: `Ownable.sol` is produced as a
dependency of `Vault.sol` and indeed is not a primary file. -/
theorem find_dependencies_disjoint_from_primaries_witness :
    "/ws/Ownable.sol" ∈ find_dependencies fsC5 cfgA ["/ws/Vault.sol"] ∧
    "/ws/Ownable.sol" ∉ ["/ws/Vault.sol"] :=
  ⟨by decide,
   find_dependencies_disjoint_from_primaries fsC5 cfgA ["/ws/Vault.sol"] "/ws/Ownable.sol"
     (by decide)⟩

/-- Claim C5.  On `contract Vault is Ownable, Pausable {}` with sibling
`Ownable.sol` present: the first ranked candidate for `Ownable` resolves
to the sibling file, every candidate for `Pausable` fails to resolve,
and the returned dependency list contains exactly `Ownable.sol` — with
no error raised (the embedding is total and the unresolved base is
merely skipped). -/
theorem inheritance_resolution_scenario :
    resolve_import_path fsC5 cfgA "Ownable.sol" "/ws/Vault.sol" = some "/ws/Ownable.sol" ∧
    (inherit_candidates "Pausable").all
      (fun cand => (resolve_import_path fsC5 cfgA cand "/ws/Vault.sol").isNone) = true ∧
    find_dependencies fsC5 cfgA ["/ws/Vault.sol"] = ["/ws/Ownable.sol"] := by
  decide

/-- Claim C6.  Resolving `crate::utils::helpers` from `/ws/src/lib.rs`
(package manifest at `/ws`): the walk finds `utils/mod.rs` for the
`utils` segment (after `utils.rs` fails), continues from its directory,
finds `helpers.rs`, and reports *both* files; and a segment with no
file (`a` in `crate::a::b`) descends into the same-named subdirectory
without failing the walk. -/
theorem rust_module_walk_scenario :
    resolve_rust_import_path fsC6 cfgA "crate::utils::helpers" "/ws/src/lib.rs" =
      ["/ws/utils/helpers.rs", "/ws/utils/mod.rs"] ∧
    "/ws/utils/mod.rs" ∈
      resolve_rust_import_path fsC6 cfgA "crate::utils::helpers" "/ws/src/lib.rs" ∧
    "/ws/utils/helpers.rs" ∈
      resolve_rust_import_path fsC6 cfgA "crate::utils::helpers" "/ws/src/lib.rs" ∧
    resolve_rust_import_path fsC6 cfgA "crate::a::b" "/ws/src/lib.rs" = ["/ws/a/b.rs"] := by
  decide

/-- Claim C7.  A failing read is caught: the file still becomes visited
(and opened exactly once), contributes the empty dependency set, and —
as the concrete run shows — traversal continues with the remaining
primary files, whose dependencies are still found. -/
theorem unreadable_file_contributes_empty :
    (∀ (fs : FS) (cfg : Config) (fuel : Nat) (q : String) (st : St),
        fs.read q = none → ¬ q ∈ st.visited →
        find_file_dependencies fs cfg (fuel + 1) q st =
          ([], ⟨q :: st.visited, st.trace ++ [q]⟩)) ∧
    find_dependencies fsC7 cfgA ["/ws/bad.sol", "/ws/good.sol"] = ["/ws/dep.sol"] := by
  constructor
  · intro fs cfg fuel q st hread hvis
    simp [find_file_dependencies, hvis, hread]
  · decide

/-- Witness for C7 at a concrete input: the unreadable `/ws/bad.sol`. -/
theorem unreadable_file_contributes_empty_witness :
    fsC7.read "/ws/bad.sol" = none ∧
    find_file_dependencies fsC7 cfgA 11 "/ws/bad.sol" ⟨[], []⟩ =
      ([], ⟨["/ws/bad.sol"], ["/ws/bad.sol"]⟩) :=
  ⟨by decide,
   unreadable_file_contributes_empty.1 fsC7 cfgA 10 "/ws/bad.sol" ⟨[], []⟩ (by decide)
     (by decide)⟩

/-- Claim C8.  The embedding of `find_dependencies` is a pure function of
the filesystem and inputs, so two runs are (definitionally) identical;
its output is sorted in the code-point lexicographic order and free of
duplicates. -/
theorem find_dependencies_idempotent_sorted_nodup (fs : FS) (cfg : Config)
    (prim : List String) :
    find_dependencies fs cfg prim = find_dependencies fs cfg prim ∧
    (find_dependencies fs cfg prim).Sorted (fun a b => str_le a b = true) ∧
    (find_dependencies fs cfg prim).Nodup := by
  refine ⟨rfl, sort_strings_sorted _, ?_⟩
  exact sort_strings_nodup ((List.nodup_dedup _).filter _ |>.filter _)

/-- Claim C9.  Within one `find_dependencies` invocation every file is
opened at most once: expansion of an already-visited file returns
immediately with the state untouched, the visited set only ever grows
(it is never cleared mid-traversal), and the trace of attempted reads of
a whole invocation has no duplicates (each file enters the visited set
right when it is first opened). -/
theorem visited_set_read_at_most_once :
    (∀ (fs : FS) (cfg : Config) (fuel : Nat) (q : String) (st : St),
        q ∈ st.visited → find_file_dependencies fs cfg fuel q st = ([], st)) ∧
    (∀ (fs : FS) (cfg : Config) (fuel : Nat) (q : String) (st : St) (x : String),
        x ∈ st.visited → x ∈ (find_file_dependencies fs cfg fuel q st).2.visited) ∧
    ∀ (fs : FS) (cfg : Config) (prim : List String),
        ((find_dependencies_st fs cfg prim).2.trace).Nodup := by
  refine ⟨?_, ?_, ?_⟩
  · intro fs cfg fuel q st h
    cases fuel with
    | zero => rfl
    | succ fuel => simp [find_file_dependencies, h]
  · intro fs cfg fuel q st x hx
    obtain ⟨ts, _, _, _, hv⟩ := find_file_dependencies_grows fs cfg fuel q st
    exact (hv x).mpr (Or.inl hx)
  · intro fs cfg prim
    obtain ⟨ts, ht, hn, _, _⟩ := find_deps_fold_grows fs cfg prim ([], ⟨[], []⟩)
    have h2 : (find_dependencies_st fs cfg prim).2.trace = [] ++ ts := ht
    rw [h2]
    simpa using hn

/-- Witness for C9 at a concrete input: an already-visited file. -/
theorem visited_set_read_at_most_once_witness :
    "/ws/a.sol" ∈ (⟨["/ws/a.sol"], []⟩ : St).visited ∧
    find_file_dependencies fsC10 cfgA 5 "/ws/a.sol" ⟨["/ws/a.sol"], []⟩ =
      ([], ⟨["/ws/a.sol"], []⟩) ∧
    "/ws/a.sol" ∈
      (find_file_dependencies fsC10 cfgA 5 "/ws/other.sol" ⟨["/ws/a.sol"], []⟩).2.visited :=
  ⟨by decide,
   visited_set_read_at_most_once.1 fsC10 cfgA 5 "/ws/a.sol" ⟨["/ws/a.sol"], []⟩ (by decide),
   visited_set_read_at_most_once.2.1 fsC10 cfgA 5 "/ws/other.sol" ⟨["/ws/a.sol"], []⟩
     "/ws/a.sol" (by decide)⟩

/-- Claim C10.  `find_primary_files` with an explicitly empty changed
list behaves exactly as with no list at all (`if changed_files:` is
falsy for both), performing the full workspace walk — which can be
non-empty, as the concrete workspace shows. -/
theorem empty_changed_files_triggers_walk :
    (∀ (fs : FS) (cfg : Config),
        find_primary_files fs cfg (some []) = find_primary_files fs cfg none) ∧
    find_primary_files fsC10 cfgA (some []) = ["/ws/a.sol"] :=
  ⟨fun _ _ => rfl, by decide⟩

end AuditMetrics
